import Mathlib

/-!
# Verification of the YOLO image annotator editing engine

A shallow embedding of the annotation editing core of `src/main.rs`:
the bounding-box data model, the annotation/label file codec with its
legacy numeric-id offset, box creation from a drag, corner resizing,
the undo history stack, and the pointer-driven interaction loop.
`f32` coordinates are modelled as rationals; `Vec` as `List`.
-/

namespace Yolo

set_option maxRecDepth 16000

/-- Bounding box in normalized image coordinates, from `struct BBox`
(src/main.rs lines 10-17).  `cx`,`cy` are the center and `w`,`h` the size,
each as a fraction of the image dimensions. -/
structure BBox where
  class_name : String
  cx : ℚ
  cy : ℚ
  w : ℚ
  h : ℚ
deriving Repr, DecidableEq

/-- Corner being dragged during a resize (src/main.rs line 24). -/
inductive ResizeCorner
  | TL
  | TR
  | BL
  | BR
deriving Repr, DecidableEq

/-- Drag state machine tag (src/main.rs line 27). -/
inductive DragMode
  | None
  | Creating
  | Moving
  | Resizing (corner : ResizeCorner)
deriving Repr, DecidableEq

/-! ## String primitives

The Rust code uses `str::trim`, `split_whitespace`, `parse::<usize>`,
`parse::<f32>`, `{:.6}` formatting and `char` replacement.  They are
modelled here by structurally recursive functions over the character
lists of Lean strings, so that every concrete run can be evaluated. -/

/-- Model of `str::trim`: strip leading and trailing whitespace. -/
def trimChars (l : List Char) : List Char :=
  ((l.dropWhile Char.isWhitespace).reverse.dropWhile Char.isWhitespace).reverse

/-- Model of `str::trim` on strings. -/
def strTrim (s : String) : String := ⟨trimChars s.data⟩

/-- Accumulator pass of `split_whitespace`: maximal runs of
non-whitespace characters, outer whitespace dropped. -/
def splitWSAux : List Char → List Char → List String
  | [], acc => if acc.isEmpty then [] else [⟨acc.reverse⟩]
  | c :: cs, acc =>
    if c.isWhitespace then
      if acc.isEmpty then splitWSAux cs [] else (⟨acc.reverse⟩ : String) :: splitWSAux cs []
    else splitWSAux cs (c :: acc)

/-- Model of `str::split_whitespace().collect()`. -/
def splitWS (s : String) : List String := splitWSAux s.data []

/-- Numeric value of a digit string (most significant first). -/
def digitsNat (l : List Char) : ℕ :=
  l.foldl (fun acc c => acc * 10 + (c.toNat - 48)) 0

/-- Model of `str::parse::<usize>` on the digit tokens occurring in
annotation files (Rust additionally accepts a redundant leading `+`,
which never occurs in files this tool writes or its format describes). -/
def parseUsize? (s : String) : Option ℕ :=
  if s.data ≠ [] ∧ s.data.all Char.isDigit then some (digitsNat s.data) else none

/-- Split a character list at `.` separators. -/
def splitDotAux : List Char → List Char → List (List Char)
  | [], acc => [acc.reverse]
  | c :: cs, acc =>
    if c = '.' then acc.reverse :: splitDotAux cs [] else splitDotAux cs (c :: acc)

/-- Model of `str::parse::<f32>` on plain decimal literals
`[-]digits[.digits]` — the only shapes the annotation format produces.
The parsed value is represented exactly as a rational. -/
def parseF32? (s : String) : Option ℚ :=
  let p : ℚ × List Char :=
    match s.data with
    | '-' :: rest => (-1, rest)
    | l => (1, l)
  let sgn := p.1
  let body := p.2
  if body ≠ [] ∧ body.all Char.isDigit then some (sgn * digitsNat body)
  else
    match splitDotAux body [] with
    | [ip, fp] =>
      if (ip ≠ [] ∨ fp ≠ []) ∧ ip.all Char.isDigit ∧ fp.all Char.isDigit then
        some (sgn * ((digitsNat ip : ℚ) + (digitsNat fp : ℚ) / 10 ^ fp.length))
      else none
    | _ => none

/-- Fractional part printed with exactly six digits. -/
def pad6 (f : ℕ) : String :=
  let s := toString f
  (⟨List.replicate (6 - s.length) '0'⟩ : String) ++ s

/-- Model of Rust `{:.6}` formatting at rational values: round to six
decimal places and print with exactly six fractional digits (half-way
ties never occur at the values evaluated in this development). -/
def fmt6 (q : ℚ) : String :=
  let n : ℤ := round (q * 1000000)
  (if n < 0 then "-" else "") ++ toString (n.natAbs / 1000000) ++ "." ++ pad6 (n.natAbs % 1000000)

/-! ## Class table and annotation codec -/

/-- The legacy id offset: 1 exactly when the first class-table entry is
the literal name "object" (`self.classes.get(0).is_some_and(|c| c == "object")`,
src/main.rs lines 187 and 234). -/
def legacyOffset (classes : List String) : ℕ :=
  if classes.head? = some "object" then 1 else 0

/-- Placeholder extension (src/main.rs line 201):
`while classes.len() <= id { classes.push(format!("class_{}", classes.len())) }`,
run here on the precomputed iteration count. -/
def extendClassesAux : ℕ → List String → List String
  | 0, classes => classes
  | fuel + 1, classes => extendClassesAux fuel (classes ++ ["class_" ++ toString classes.length])

/-- Extend the class table with `class_<n>` placeholders up to index `id`. -/
def extendClasses (classes : List String) (id : ℕ) : List String :=
  extendClassesAux (id + 1 - classes.length) classes

/-- Resolution of a line's first token (src/main.rs lines 195-206):
a numeric token gets the legacy offset added, then either an in-bounds
lookup or a table-growing placeholder extension; a non-numeric token is
a literal class name with underscores replaced by spaces. -/
def resolveToken (classes : List String) (addition : ℕ) (token : String) :
    List String × String :=
  match parseUsize? token with
  | some n =>
    let id := n + addition
    if id < classes.length then (classes, classes.getD id "")
    else
      let grown := extendClasses classes id
      (grown, grown.getD id "")
  | none => (classes, ⟨token.data.map (fun c => if c = '_' then ' ' else c)⟩)

/-- The boxes and class table threaded through annotation loading. -/
structure LoadSt where
  boxes : List BBox
  classes : List String
deriving Repr, DecidableEq

/-- Registration of a parsed class name (src/main.rs lines 215-217):
append only when no equal name is present. -/
def registerClass (classes : List String) (name : String) : List String :=
  if name ∈ classes then classes else classes ++ [name]

/-- One iteration of the parsing loop of `load_annotations_for_current`
(src/main.rs lines 188-219): trim, skip blank lines, require at least five
whitespace-separated fields, resolve the class token (which may grow the
table) and drop the line unless all four coordinates parse as floats. -/
def loadLine (addition : ℕ) (st : LoadSt) (rawLine : String) : LoadSt :=
  let line := strTrim rawLine
  if line = "" then st
  else
    let parts := splitWS line
    if 5 ≤ parts.length then
      let r := resolveToken st.classes addition (parts.getD 0 "")
      match parseF32? (parts.getD 1 ""), parseF32? (parts.getD 2 ""),
            parseF32? (parts.getD 3 ""), parseF32? (parts.getD 4 "") with
      | some x, some y, some w, some h =>
        { boxes := st.boxes ++ [⟨r.2, x, y, w, h⟩],
          classes := registerClass r.1 r.2 }
      | _, _, _, _ => { st with classes := r.1 }
    else st

/-- Model of `load_annotations_for_current` (src/main.rs lines 175-224) on
the lines of an annotation file: boxes are rebuilt from empty, the legacy
offset is fixed from the table as it was when the file was opened, and the
class table is threaded through all lines. -/
def load_annotations (classes : List String) (lines : List String) : LoadSt :=
  lines.foldl (loadLine (legacyOffset classes)) ⟨[], classes⟩

/-- Model of `save_classes_file` (src/main.rs lines 122-129): the label
file holds one class name per line. -/
def save_classes_file (classes : List String) : String :=
  String.join (classes.map (fun c => c ++ "\n"))

/-- Model of `load_annotations_for_current` including its final unconditional
`save_classes_file` call (src/main.rs lines 222-223): the result is the
load state together with the persisted label-file contents. -/
def load_annotations_for_current (classes : List String) (lines : List String) :
    LoadSt × String :=
  let st := load_annotations classes lines
  (st, save_classes_file st.classes)

/-- Render one annotation line `"<id> <cx> <cy> <w> <h>"` with
six-decimal floats (src/main.rs line 249). -/
def renderLine (cid : ℕ) (b : BBox) : String :=
  toString cid ++ " " ++ fmt6 b.cx ++ " " ++ fmt6 b.cy ++ " " ++ fmt6 b.w ++ " " ++ fmt6 b.h

/-- One iteration of the save loop of `save_annotations_for_current`
(src/main.rs lines 232-249): find the class id or append the unseen name,
then subtract the legacy offset unless that would underflow
(`if cid < minus { minus = 0 }`). -/
def saveLine (classes : List String) (b : BBox) : List String × String :=
  let minus := legacyOffset classes
  let r : List String × ℕ :=
    match classes.findIdx? (fun c => c == b.class_name) with
    | some i => (classes, i)
    | none => (classes ++ [b.class_name], classes.length)
  let minus := if r.2 < minus then 0 else minus
  (r.1, renderLine (r.2 - minus) b)

/-- Model of `save_annotations_for_current` (src/main.rs lines 227-252):
the emitted annotation lines in box order, together with the class table
(which grows when a box carries an unseen class name). -/
def save_annotations (classes : List String) (boxes : List BBox) :
    List String × List String :=
  boxes.foldl
    (fun acc b =>
      let r := saveLine acc.1 b
      (r.1, acc.2 ++ [r.2]))
    (classes, [])

/-! ## Geometry and application state -/

/-- A screen point (`egui::Pos2`). -/
structure Pos where
  x : ℚ
  y : ℚ
deriving Repr, DecidableEq

/-- The displayed image rectangle (`egui::Rect`), as used by the code:
left/top corner plus width and height. -/
structure Rect where
  left : ℚ
  top : ℚ
  width : ℚ
  height : ℚ
deriving Repr, DecidableEq

def Rect.right (r : Rect) : ℚ := r.left + r.width

def Rect.bottom (r : Rect) : ℚ := r.top + r.height

/-- Model of `Rect::contains` (inclusive on all edges). -/
def Rect.containsP (r : Rect) (p : Pos) : Bool :=
  decide (r.left ≤ p.x) && decide (p.x ≤ r.right) &&
  decide (r.top ≤ p.y) && decide (p.y ≤ r.bottom)

/-- Rust `f32::clamp(lo, hi)`: `self.max(lo).min(hi)`. -/
def rclamp (x lo hi : ℚ) : ℚ := min (max x lo) hi

/-- The editing-engine fields of `struct AppState` (src/main.rs 29-53).
The GUI-only fields (texture, sizes, image list, text-entry buffer) are
reduced to `has_images`; `saves` counts annotation-file persists and
`ann_file` holds the lines last written. -/
structure AppState where
  has_images : Bool
  boxes : List BBox
  classes : List String
  cur_class_idx : ℕ
  selected_box : Option ℕ
  drag_mode : DragMode
  dragging : Bool
  drag_start : Pos
  drag_end : Pos
  last_pointer_pos : Option Pos
  history : List (List BBox)
  history_limit : ℕ
  click_tolerance : ℚ
  min_box_pixels : ℚ
  saves : ℕ
  ann_file : List String
deriving Repr, DecidableEq

/-- Model of `AppState::default()` (src/main.rs 55-80) restricted to the modelled
fields. -/
def initState : AppState where
  has_images := false
  boxes := []
  classes := ["object"]
  cur_class_idx := 0
  selected_box := none
  drag_mode := .None
  dragging := false
  drag_start := ⟨0, 0⟩
  drag_end := ⟨0, 0⟩
  last_pointer_pos := none
  history := []
  history_limit := 200
  click_tolerance := 8
  min_box_pixels := 6
  saves := 0
  ann_file := []

/-- The history-stack update of `push_history`: push the snapshot, then
drop the oldest entry when the stack exceeds the limit. -/
def pushSnap (limit : ℕ) (hist : List (List BBox)) (snap : List BBox) : List (List BBox) :=
  let h := hist ++ [snap]
  if limit < h.length then h.tail else h

/-- Model of `push_history` (src/main.rs 83-89): record a snapshot of the current
boxes on the bounded history stack. -/
def push_history (s : AppState) : AppState :=
  { s with history := pushSnap s.history_limit s.history s.boxes }

/-- Model of `save_annotations_for_current` (src/main.rs 227-252) as a state
transition: a no-op without images; otherwise the codec runs over the
current boxes, the class table absorbs unseen names, the produced lines
replace the annotation file and the persist counter advances. -/
def save_annotations_for_current (s : AppState) : AppState :=
  if s.has_images then
    let r := save_annotations s.classes s.boxes
    { s with classes := r.1, ann_file := r.2, saves := s.saves + 1 }
  else s

/-- Model of `undo` (src/main.rs 91-97): pop the newest snapshot if any, restore
it as the live collection, clear the selection and persist. -/
def undo (s : AppState) : AppState :=
  match s.history.getLast? with
  | some prev =>
    save_annotations_for_current
      { s with boxes := prev, selected_box := none, history := s.history.dropLast }
  | none => s

/-! ## Box creation from a drag (src/main.rs 254-280)

The intermediate quantities of `add_box_from_drag` are named so that the
theorems below can speak about them. -/

def drag_x0 (s : AppState) (img : Rect) : ℚ := rclamp (s.drag_start.x - img.left) 0 img.width

def drag_y0 (s : AppState) (img : Rect) : ℚ := rclamp (s.drag_start.y - img.top) 0 img.height

def drag_x1 (s : AppState) (img : Rect) : ℚ := rclamp (s.drag_end.x - img.left) 0 img.width

def drag_y1 (s : AppState) (img : Rect) : ℚ := rclamp (s.drag_end.y - img.top) 0 img.height

def drag_nx0 (s : AppState) (img : Rect) : ℚ := min (drag_x0 s img) (drag_x1 s img) / img.width

def drag_ny0 (s : AppState) (img : Rect) : ℚ := min (drag_y0 s img) (drag_y1 s img) / img.height

def drag_nx1 (s : AppState) (img : Rect) : ℚ := max (drag_x0 s img) (drag_x1 s img) / img.width

def drag_ny1 (s : AppState) (img : Rect) : ℚ := max (drag_y0 s img) (drag_y1 s img) / img.height

def drag_w (s : AppState) (img : Rect) : ℚ := max (drag_nx1 s img - drag_nx0 s img) 0

def drag_h (s : AppState) (img : Rect) : ℚ := max (drag_ny1 s img - drag_ny0 s img) 0

def drag_cx (s : AppState) (img : Rect) : ℚ := (drag_nx0 s img + drag_nx1 s img) / 2

def drag_cy (s : AppState) (img : Rect) : ℚ := (drag_ny0 s img + drag_ny1 s img) / 2

/-- The quantity `pixel_w = w * img_rect.width()` (src/main.rs 268). -/
def drag_pixel_w (s : AppState) (img : Rect) : ℚ := drag_w s img * img.width

/-- The quantity `pixel_h = h * img_rect.height()` (src/main.rs 269). -/
def drag_pixel_h (s : AppState) (img : Rect) : ℚ := drag_h s img * img.height

/-- Class assigned to a freshly created box (src/main.rs 271-275). -/
def drag_class (s : AppState) : String :=
  match s.classes with
  | [] => "object"
  | c0 :: _ => s.classes.getD s.cur_class_idx c0

/-- Model of `add_box_from_drag` (src/main.rs 254-280): accept the dragged
rectangle only when it has positive ratio size and both pixel dimensions
reach `min_box_pixels`; on acceptance push history and append the box. -/
def add_box_from_drag (s : AppState) (img : Rect) : AppState :=
  if 0 < drag_w s img ∧ 0 < drag_h s img ∧
      s.min_box_pixels ≤ drag_pixel_w s img ∧ s.min_box_pixels ≤ drag_pixel_h s img then
    let s' := push_history s
    { s' with boxes := s'.boxes ++
        [⟨drag_class s, drag_cx s img, drag_cy s img, drag_w s img, drag_h s img⟩] }
  else s

/-! ## Corner resize (src/main.rs 492-535) -/

/-- Renormalization tail of the resize branch (src/main.rs 520-530):
swap crossed edges, floor the new size at 0.001, recompute the center and
clamp the size to [0.0001, 1]. -/
def resizeFinish (b : BBox) (newL newT newR newB : ℚ) : BBox :=
  let nl := min newL newR
  let nr := max newL newR
  let nt := min newT newB
  let nb := max newT newB
  let nw := max (nr - nl) (1/1000)
  let nh := max (nb - nt) (1/1000)
  { b with cx := (nl + nr) / 2, cy := (nt + nb) / 2,
           w := rclamp nw (1/10000) 1, h := rclamp nh (1/10000) 1 }

/-- One `Resizing(corner)` drag frame applied to the selected box
(src/main.rs 498-530): the pointer becomes the dragged corner (clamped
into the image as a ratio), the other corners stay fixed. -/
def resize_step (b : BBox) (corner : ResizeCorner) (img : Rect) (pos : Pos) : BBox :=
  let left := b.cx - b.w / 2
  let right := b.cx + b.w / 2
  let top := b.cy - b.h / 2
  let bottom := b.cy + b.h / 2
  let rx := rclamp ((pos.x - img.left) / img.width) 0 1
  let ry := rclamp ((pos.y - img.top) / img.height) 0 1
  match corner with
  | .TL => resizeFinish b rx ry right bottom
  | .TR => resizeFinish b left ry rx bottom
  | .BL => resizeFinish b rx top right ry
  | .BR => resizeFinish b left top rx ry

/-! ## The interaction loop (src/main.rs `update`) -/

def boxLeftPx (b : BBox) (img : Rect) : ℚ := img.left + (b.cx - b.w / 2) * img.width

def boxTopPx (b : BBox) (img : Rect) : ℚ := img.top + (b.cy - b.h / 2) * img.height

def boxRightPx (b : BBox) (img : Rect) : ℚ := boxLeftPx b img + b.w * img.width

def boxBottomPx (b : BBox) (img : Rect) : ℚ := boxTopPx b img + b.h * img.height

/-- Tolerance-expanded point-in-box test of the press handler
(src/main.rs 422-427). -/
def hitBox (b : BBox) (img : Rect) (tol : ℚ) (pos : Pos) : Bool :=
  decide (boxLeftPx b img - tol ≤ pos.x) && decide (pos.x ≤ boxRightPx b img + tol) &&
  decide (boxTopPx b img - tol ≤ pos.y) && decide (pos.y ≤ boxBottomPx b img + tol)

def dummyBBox : BBox := ⟨"", 0, 0, 0, 0⟩

/-- Hit test in reverse insertion order with early break
(src/main.rs 420-431): the topmost (most recently added) hit wins. -/
def hitTest (boxes : List BBox) (img : Rect) (tol : ℚ) (pos : Pos) : Option ℕ :=
  (List.range boxes.length).reverse.find? (fun i => hitBox (boxes.getD i dummyBBox) img tol pos)

/-- Corner-proximity classification of a press on a box
(src/main.rs 445-455): handle radius `max(tolerance, 6)`, corners
checked in the order TL, TR, BL, BR, otherwise a move. -/
def cornerMode (b : BBox) (img : Rect) (handle : ℚ) (pos : Pos) : DragMode :=
  let nearL : Bool := decide (|pos.x - boxLeftPx b img| ≤ handle)
  let nearR : Bool := decide (|pos.x - boxRightPx b img| ≤ handle)
  let nearT : Bool := decide (|pos.y - boxTopPx b img| ≤ handle)
  let nearB : Bool := decide (|pos.y - boxBottomPx b img| ≤ handle)
  if nearL && nearT then .Resizing .TL
  else if nearR && nearT then .Resizing .TR
  else if nearL && nearB then .Resizing .BL
  else if nearR && nearB then .Resizing .BR
  else .Moving

/-- The press handler (src/main.rs 416-468): inside the image, hit-test;
on a hit select, push history and classify move/resize; on a miss
deselect and start creating (recording the anchor and pushing history). -/
def pressStep (s : AppState) (img : Rect) (pos : Pos) : AppState :=
  if img.containsP pos then
    let found := hitTest s.boxes img s.click_tolerance pos
    let s1 := { s with selected_box := found }
    match found with
    | some i =>
      let s2 := push_history s1
      let b := s2.boxes.getD i dummyBBox
      { s2 with last_pointer_pos := some pos,
                drag_mode := cornerMode b img (max s2.click_tolerance 6) pos }
    | none =>
      push_history
        { s1 with drag_mode := .Creating, dragging := true, drag_start := pos, drag_end := pos }
  else s

/-- One `Moving` drag frame (src/main.rs 474-491): relative normalized
delta from the last pointer position, applied to the selected box with
the center clamped to [0,1]. -/
def moveDrag (s : AppState) (img : Rect) (pos : Pos) : AppState :=
  match s.last_pointer_pos with
  | some last =>
    let dx := (pos.x - last.x) / img.width
    let dy := (pos.y - last.y) / img.height
    let s1 :=
      match s.selected_box with
      | some idx =>
        match s.boxes.get? idx with
        | some b =>
          let b' := { b with cx := rclamp (b.cx + dx) 0 1, cy := rclamp (b.cy + dy) 0 1 }
          { s with boxes := s.boxes.set idx b' }
        | none => s
      | none => s
    { s1 with last_pointer_pos := some pos }
  | none => { s with last_pointer_pos := some pos }

/-- One `Resizing` drag frame (src/main.rs 492-535) on the selected box. -/
def resizeDrag (s : AppState) (corner : ResizeCorner) (img : Rect) (pos : Pos) : AppState :=
  match s.selected_box with
  | some idx =>
    match s.boxes.get? idx with
    | some b => { s with boxes := s.boxes.set idx (resize_step b corner img pos) }
    | none => s
  | none => s

/-- The per-frame drag update (src/main.rs 470-536); `down` is
`pointer.primary_down()`, consulted only by the Moving/Resizing arms. -/
def dragStep (s : AppState) (img : Rect) (pos : Pos) (down : Bool) : AppState :=
  match s.drag_mode with
  | .None => s
  | .Creating => { s with drag_end := pos }
  | .Moving => if down then moveDrag s img pos else s
  | .Resizing corner => if down then resizeDrag s corner img pos else s

/-- The release handler (src/main.rs 539-550): when a drag was active,
commit (attempting creation in `Creating` mode), persist, and return to
`None` clearing the last-pointer reference. -/
def releaseStep (s : AppState) (img : Rect) : AppState :=
  if s.drag_mode ≠ .None then
    let s1 :=
      if s.drag_mode = .Creating then
        save_annotations_for_current (add_box_from_drag { s with dragging := false } img)
      else save_annotations_for_current s
    { s1 with drag_mode := .None, last_pointer_pos := none }
  else s

/-- The "Delete Selected Box" button (src/main.rs 588-597): bounds-checked removal,
history pushed first, selection cleared, persisted. -/
def deleteStep (s : AppState) : AppState :=
  match s.selected_box with
  | some idx =>
    if idx < s.boxes.length then
      let s1 := push_history s
      save_annotations_for_current
        { s1 with boxes := s1.boxes.eraseIdx idx, selected_box := none }
    else s
  | none => s

/-- The "Duplicate Selected Box" button (src/main.rs 599-607): history pushed, then
a guarded clone append and persist. -/
def duplicateStep (s : AppState) : AppState :=
  match s.selected_box with
  | some idx =>
    let s1 := push_history s
    match s1.boxes.get? idx with
    | some b => save_annotations_for_current { s1 with boxes := s1.boxes ++ [b] }
    | none => s1
  | none => s

/-- One rendered frame of the "Selected box controls" section
(src/main.rs 609-649).  `selChoice` is the index shown by the class
combo when the frame ends — the widget can only yield an in-range index,
so out-of-range values fall back to the initial position — and
`assignLeft` says whether "Assign current left-class to selected" was
clicked.  Note the unconditional `push_history` as soon as a selection
exists (src/main.rs 611-613). -/
def controlsStep (s : AppState) (selChoice : ℕ) (assignLeft : Bool) : AppState :=
  match s.selected_box with
  | some idx =>
    let s1 := push_history s
    let sel0 :=
      (match s1.boxes.get? idx with
       | some b => s1.classes.findIdx? (fun c => c == b.class_name)
       | none => none).getD 0
    let sel := if selChoice < s1.classes.length then selChoice else sel0
    match s1.boxes.get? idx with
    | some b =>
      let selName := s1.classes.getD sel ""
      let r1 : BBox × Bool :=
        if b.class_name ≠ selName then ({ b with class_name := selName }, true) else (b, false)
      let r2 : BBox × Bool :=
        if assignLeft then ({ r1.1 with class_name := s1.classes.getD s1.cur_class_idx "" }, true)
        else r1
      let s2 := { s1 with boxes := s1.boxes.set idx r2.1 }
      if r2.2 then save_annotations_for_current s2 else s2
    | none => s1
  | none => s

/-- The left-panel "Add" button (src/main.rs 357-368): trim the entry,
append the name unless already present, and point the active class at
it (the label file is persisted on growth, not tracked here). -/
def addClassStep (s : AppState) (input : String) : AppState :=
  if strTrim input ≠ "" then
    let name := strTrim input
    let s1 := { s with classes := registerClass s.classes name }
    { s1 with cur_class_idx := (s1.classes.findIdx? (fun c => c == name)).getD 0 }
  else s

/-- Switching to another image (Prev/Next/list click, src/main.rs
299-313 and 386-390, followed by `load_current_image_texture` 146-164):
persist the current boxes, clear selection and drag state, then load the
next annotation file. -/
def switchImageStep (s : AppState) (lines : List String) : AppState :=
  if s.has_images then
    let s1 := save_annotations_for_current s
    let s2 := { s1 with selected_box := none, drag_mode := .None, last_pointer_pos := none }
    let r := load_annotations s2.classes lines
    { s2 with boxes := r.boxes, classes := r.classes }
  else s

/-- The abstract input events driving the editing engine. -/
inductive Event
  | press (img : Rect) (pos : Pos)
  | drag (img : Rect) (pos : Pos) (down : Bool)
  | release (img : Rect)
  | deleteSelected
  | duplicateSelected
  | controlsFrame (selChoice : ℕ) (assignLeft : Bool)
  | undoShortcut
  | addClass (input : String)
  | switchImage (lines : List String)
deriving Repr, DecidableEq

/-- One event of the interaction loop (`update`, src/main.rs 290-655),
restricted to the editing engine.  Central-panel events require a loaded
image (`if self.images.is_empty() { return; }`, line 397); the undo
shortcut and the Add-class button work regardless. -/
def step (s : AppState) : Event → AppState
  | .press img pos => if s.has_images then pressStep s img pos else s
  | .drag img pos down => if s.has_images then dragStep s img pos down else s
  | .release img => if s.has_images then releaseStep s img else s
  | .deleteSelected => if s.has_images then deleteStep s else s
  | .duplicateSelected => if s.has_images then duplicateStep s else s
  | .controlsFrame c a => if s.has_images then controlsStep s c a else s
  | .undoShortcut => undo s
  | .addClass n => addClassStep s n
  | .switchImage lines => switchImageStep s lines

/-- Run a sequence of input events. -/
def run (s : AppState) (events : List Event) : AppState := events.foldl step s

/-! ## Derived definitions used by the statements -/

/-- A sequence of `push_history` calls, each taken on an arbitrary
intervening box collection (the snapshot that call records). -/
def pushMany (s : AppState) (snaps : List (List BBox)) : AppState :=
  snaps.foldl (fun t bs => push_history { t with boxes := bs }) s

/-- Stale-selection safety: every selected index lies within the box
collection. -/
def selInv (s : AppState) : Prop :=
  ∀ i, s.selected_box = some i → i < s.boxes.length

/-! ## Concrete fixtures used by the claim theorems -/

/-- A 100×100 image rectangle at the origin. -/
def img0 : Rect := ⟨0, 0, 100, 100⟩

/-- The default state with an image folder loaded. -/
def sLive : AppState := { initState with has_images := true }

/-- The box created by dragging (10,10)→(40,40) on `img0`. -/
def boxA : BBox := ⟨"object", 1/4, 1/4, 3/10, 3/10⟩

def objBox : BBox := ⟨"object", 1/2, 1/2, 1/5, 1/10⟩

def carBox : BBox := ⟨"car", 1/2, 1/2, 1/5, 1/10⟩

def squareBox : BBox := ⟨"object", 1/2, 1/2, 1/5, 1/5⟩

/-- Press-drag-release creating `boxA`. -/
def createA : List Event :=
  [.press img0 ⟨10, 10⟩, .drag img0 ⟨40, 40⟩ true, .release img0]

/-- Press-drag-release creating a second box at (60,60)→(90,90). -/
def createB : List Event :=
  [.press img0 ⟨60, 60⟩, .drag img0 ⟨90, 90⟩ true, .release img0]

/-- Click on the interior of `boxA` (selects it, mode Moving), then release. -/
def selectA : List Event := [.press img0 ⟨25, 25⟩, .release img0]

/-- A live state holding one box and one history snapshot. -/
def sOneSnap : AppState :=
  { initState with has_images := true, boxes := [boxA], history := [[]] }

/-- A live state with a recorded drag from (10,10) to (40,40). -/
def sDragged : AppState :=
  { initState with has_images := true, drag_start := ⟨10, 10⟩, drag_end := ⟨40, 40⟩ }

/-! ## Helper lemmas -/

/-- Lemma: `registerClass` preserves uniqueness of the class table and is a
no-op on an already-present name. -/
theorem registerClass_nodup (cs : List String) (name : String) (h : cs.Nodup) :
    (registerClass cs name).Nodup ∧ (name ∈ cs → registerClass cs name = cs) := by
  unfold registerClass
  split
  · exact ⟨h, fun _ => rfl⟩
  · rename_i hmem
    refine ⟨List.nodup_append.mpr ⟨h, by simp, ?_⟩, fun hmem' => absurd hmem' hmem⟩
    intro x hx hx'
    simp only [List.mem_singleton] at hx'
    exact hmem (hx' ▸ hx)

/-- A hit-test result is an in-bounds index of the box collection. -/
theorem hitTest_lt {boxes : List BBox} {img : Rect} {tol : ℚ} {pos : Pos} {i : ℕ}
    (h : hitTest boxes img tol pos = some i) : i < boxes.length := by
  have hmem := List.mem_of_find?_eq_some h
  rw [List.mem_reverse, List.mem_range] at hmem
  exact hmem

/-- The eviction invariant behind C7: folding `pushSnap` keeps exactly
the newest `limit` snapshots. -/
theorem pushSnap_fold (L : ℕ) (snaps : List (List BBox)) :
    ∀ hist : List (List BBox), hist.length ≤ L →
      snaps.foldl (pushSnap L) hist =
        (hist ++ snaps).drop (hist.length + snaps.length - L) := by
  induction snaps with
  | nil =>
    intro hist hle
    simp [Nat.sub_eq_zero_of_le hle]
  | cons a rest ih =>
    intro hist hle
    rw [List.foldl_cons]
    have hlen1 : (hist ++ [a]).length = hist.length + 1 := by simp
    by_cases hlt : hist.length < L
    · have hc : ¬ L < (hist ++ [a]).length := by
        rw [hlen1]
        omega
      have h1 : pushSnap L hist a = hist ++ [a] := by
        simp only [pushSnap]
        rw [if_neg hc]
      have harg : (hist ++ [a]).length ≤ L := by
        rw [hlen1]
        omega
      rw [h1, ih (hist ++ [a]) harg]
      have e1 : (hist ++ [a]) ++ rest = hist ++ a :: rest := by simp
      have e2 : (hist ++ [a]).length + rest.length - L =
          hist.length + (a :: rest).length - L := by
        rw [hlen1]
        simp only [List.length_cons]
        omega
      rw [e1, e2]
    · have heq : hist.length = L := le_antisymm hle (le_of_not_lt hlt)
      have hc : L < (hist ++ [a]).length := by
        rw [hlen1]
        omega
      have h1 : pushSnap L hist a = (hist ++ [a]).tail := by
        simp only [pushSnap]
        rw [if_pos hc]
      have hlen : (hist ++ [a]).tail.length = L := by
        rw [List.length_tail, hlen1]
        omega
      rw [h1, ih _ (le_of_eq hlen)]
      have e2 : (hist ++ [a]).tail.length + rest.length - L = rest.length := by
        rw [hlen]
        omega
      have hone : (1:ℕ) ≤ (hist ++ [a]).length := by
        rw [hlen1]
        omega
      rw [e2, ← List.drop_one, ← List.drop_append_of_le_length hone, List.drop_drop]
      have e3 : (hist ++ [a]) ++ rest = hist ++ a :: rest := by simp
      have e4 : hist.length + (a :: rest).length - L = rest.length + 1 := by
        simp only [List.length_cons]
        omega
      rw [e3, e4, Nat.add_comm 1 rest.length]

/-- Lemma: `pushMany` acts on the history stack as a `pushSnap` fold and keeps
the limit unchanged. -/
theorem pushMany_history (snaps : List (List BBox)) :
    ∀ s : AppState,
      (pushMany s snaps).history = snaps.foldl (pushSnap s.history_limit) s.history ∧
      (pushMany s snaps).history_limit = s.history_limit := by
  induction snaps with
  | nil =>
    intro s
    exact ⟨rfl, rfl⟩
  | cons a rest ih =>
    intro s
    obtain ⟨h1, h2⟩ := ih (push_history { s with boxes := a })
    constructor
    · rw [show pushMany s (a :: rest) =
          pushMany (push_history { s with boxes := a }) rest from rfl, h1]
      rfl
    · rw [show pushMany s (a :: rest) =
          pushMany (push_history { s with boxes := a }) rest from rfl, h2]
      rfl

/-- Width and height coming out of `resizeFinish` are strictly positive. -/
theorem resizeFinish_size_pos (b : BBox) (l t r bo : ℚ) :
    0 < (resizeFinish b l t r bo).w ∧ 0 < (resizeFinish b l t r bo).h := by
  unfold resizeFinish rclamp
  constructor <;>
    exact lt_min (lt_of_lt_of_le (by norm_num) (le_max_right _ _)) (by norm_num)

/-! ## Claims -/

/-- C4 (confirmed): with label table `["object"]`, parsing the line
`"0 0.1 0.1 0.2 0.2"` applies the legacy `+1` offset to the numeric
token, lands out of bounds, extends the table to `["object","class_1"]`
and gives the parsed box the class name `"class_1"`. -/
theorem C4_legacy_offset_resolution :
    load_annotations ["object"] ["0 0.1 0.1 0.2 0.2"] =
      ⟨[⟨"class_1", 1/10, 1/10, 1/5, 1/5⟩], ["object", "class_1"]⟩ := by
  with_unfolding_all decide

/-- C10 (confirmed): a line whose numeric token is out of range but whose
coordinates fail to parse adds no box, yet the class table has already
been extended with `class_<n>` placeholders during token resolution, and
that grown table is what `save_classes_file` then persists. -/
theorem C10_malformed_line_grows_table :
    (load_annotations_for_current ["object"] ["7 a b c d"]).1.boxes = [] ∧
    (load_annotations_for_current ["object"] ["7 a b c d"]).1.classes =
      ["object", "class_1", "class_2", "class_3", "class_4", "class_5",
       "class_6", "class_7", "class_8"] ∧
    (load_annotations_for_current ["object"] ["7 a b c d"]).2 =
      "object\nclass_1\nclass_2\nclass_3\nclass_4\nclass_5\nclass_6\nclass_7\nclass_8\n" := by
  with_unfolding_all decide

/-- C1 fails as stated: saving the box with class `"object"` against the
label table `["object"]` and re-loading does not reproduce the box — the
legacy offset turns the saved id 0 into 1 on load, so the box comes back
with class `"class_1"`. -/
theorem C1_counterexample :
    (load_annotations ["object"] (save_annotations ["object"] [objBox]).2).boxes ≠
      [objBox] := by
  with_unfolding_all decide

/-- C1 (amended): saving the `"object"` box against `["object"]` does
produce the line `"0 0.500000 0.500000 0.200000 0.100000"`, but loading
that line back yields the same coordinates under class `"class_1"` with
the table extended to `["object","class_1"]`; the round trip does
reproduce the original box once the class sits at an index at least the
legacy offset, e.g. class `"car"` in table `["object","car"]`, which
saves to the same line and re-loads identically. -/
theorem C1_roundtrip_amended :
    (save_annotations ["object"] [objBox]).2 =
        ["0 0.500000 0.500000 0.200000 0.100000"] ∧
    load_annotations ["object"] ["0 0.500000 0.500000 0.200000 0.100000"] =
        ⟨[⟨"class_1", 1/2, 1/2, 1/5, 1/10⟩], ["object", "class_1"]⟩ ∧
    (save_annotations ["object", "car"] [carBox]).2 =
        ["0 0.500000 0.500000 0.200000 0.100000"] ∧
    load_annotations ["object", "car"] (save_annotations ["object", "car"] [carBox]).2 =
        ⟨[carBox], ["object", "car"]⟩ := by
  with_unfolding_all decide

/-- C8 fails as stated: from the reachable table `["object","class_2"]`
(obtained by adding the class `"class_2"`), loading the line
`"1 0.1 0.1 0.2 0.2"` runs the placeholder extension, which appends
`"class_2"` without a presence check and leaves a duplicate name. -/
theorem C8_counterexample :
    (addClassStep initState "class_2").classes = ["object", "class_2"] ∧
    (load_annotations ["object", "class_2"] ["1 0.1 0.1 0.2 0.2"]).classes =
      ["object", "class_2", "class_2"] ∧
    ¬ (load_annotations ["object", "class_2"] ["1 0.1 0.1 0.2 0.2"]).classes.Nodup := by
  with_unfolding_all decide

/-- C8 (amended): the presence-checked appends — registering a class
discovered on load, saving a box with an unseen class, and the Add-class
button — preserve uniqueness of the class table, and appending an
already-present name through them is a no-op; only the placeholder
extension for an out-of-range numeric id can duplicate a name. -/
theorem C8_checked_appends_preserve_uniqueness (cs : List String) (name : String)
    (b : BBox) (s : AppState) (input : String)
    (h : cs.Nodup) (hs : s.classes.Nodup) :
    ((registerClass cs name).Nodup ∧ (name ∈ cs → registerClass cs name = cs)) ∧
    (saveLine cs b).1.Nodup ∧
    (addClassStep s input).classes.Nodup := by
  refine ⟨registerClass_nodup cs name h, ?_, ?_⟩
  · unfold saveLine
    cases hidx : cs.findIdx? (fun c => c == b.class_name) with
    | some i => simpa [hidx] using h
    | none =>
      have hnm : b.class_name ∉ cs := by
        intro hmem
        have := List.findIdx?_eq_none_iff.mp hidx
        simpa using this b.class_name hmem
      simp only [hidx]
      refine List.nodup_append.mpr ⟨h, by simp, ?_⟩
      intro x hx hx'
      simp only [List.mem_singleton] at hx'
      exact hnm (hx' ▸ hx)
  · unfold addClassStep
    split
    · exact (registerClass_nodup s.classes (strTrim input) hs).1
    · exact hs

/-- Witness for the amended C8 at concrete inputs. -/
theorem C8_checked_appends_preserve_uniqueness_witness :
    ((registerClass ["object"] "car").Nodup ∧
      ("car" ∈ ["object"] → registerClass ["object"] "car" = ["object"])) ∧
    (saveLine ["object"] dummyBBox).1.Nodup ∧
    (addClassStep initState "car").classes.Nodup :=
  C8_checked_appends_preserve_uniqueness ["object"] "car" dummyBBox initState "car"
    (by decide) (by decide)

/-- C6 fails as stated on its floor value: collapsing the box exactly
onto the fixed corner (resizing from BR with the pointer on the TL
corner) yields width and height 0.001, not the claimed 0.0001. -/
theorem C6_counterexample :
    ¬ ((resize_step squareBox .BR img0 ⟨40, 40⟩).w = 1/10000 ∧
       (resize_step squareBox .BR img0 ⟨40, 40⟩).h = 1/10000) := by
  with_unfolding_all decide

/-- C6 (amended): every resize step leaves a non-inverted box
(left < right and top < bottom) — crossing the opposite edge swaps the
edges — and the recomputed width and height are floored at 0.001 and
clamped into [0.0001, 1], so the collapsing drag of the claim yields
width and height 0.001. -/
theorem C6_resize_never_inverts (b : BBox) (corner : ResizeCorner) (img : Rect) (pos : Pos) :
    ((resize_step b corner img pos).cx - (resize_step b corner img pos).w / 2 <
        (resize_step b corner img pos).cx + (resize_step b corner img pos).w / 2 ∧
      (resize_step b corner img pos).cy - (resize_step b corner img pos).h / 2 <
        (resize_step b corner img pos).cy + (resize_step b corner img pos).h / 2) ∧
    (resize_step squareBox .BR img0 ⟨40, 40⟩).w = 1/1000 ∧
    (resize_step squareBox .BR img0 ⟨40, 40⟩).h = 1/1000 := by
  refine ⟨?_, by with_unfolding_all decide, by with_unfolding_all decide⟩
  have hpos : 0 < (resize_step b corner img pos).w ∧ 0 < (resize_step b corner img pos).h := by
    unfold resize_step
    cases corner <;> exact resizeFinish_size_pos ..
  exact ⟨by linarith [hpos.1], by linarith [hpos.2]⟩

/-- C7 (confirmed): any run of `push_history` calls from a fresh session
keeps at most 200 snapshots, namely exactly the newest ones — pushing
past the capacity evicts the oldest, so undo can reach back only to the
oldest retained snapshot, not the true initial state. -/
theorem C7_history_bounded (snaps : List (List BBox)) (s : AppState)
    (h0 : s.history = []) (hcap : s.history_limit = 200) :
    (pushMany s snaps).history = snaps.drop (snaps.length - 200) ∧
    (pushMany s snaps).history.length ≤ 200 := by
  have hle : s.history.length ≤ s.history_limit := by simp [h0]
  have h1 := (pushMany_history snaps s).1
  rw [pushSnap_fold s.history_limit snaps s.history hle, h0, hcap] at h1
  simp only [List.nil_append, List.length_nil, Nat.zero_add] at h1
  refine ⟨h1, ?_⟩
  rw [h1, List.length_drop]
  omega

/-- Witness for C7: 201 pushes on the default state retain exactly the
200 newest snapshots. -/
theorem C7_history_bounded_witness :
    (pushMany initState (List.replicate 201 ([] : List BBox))).history =
      (List.replicate 201 ([] : List BBox)).drop
        ((List.replicate 201 ([] : List BBox)).length - 200) ∧
    (pushMany initState (List.replicate 201 ([] : List BBox))).history.length ≤ 200 :=
  C7_history_bounded (List.replicate 201 []) initState rfl rfl

/-- C3 (confirmed): undo pops the most recent snapshot, installs it as
the live collection, clears the selection, and persists; on an empty
stack it is a harmless no-op.  Concretely, creating box A then box B and
undoing once leaves exactly the collection holding A alone. -/
theorem C3_undo_semantics (s : AppState) :
    (s.history = [] → undo s = s) ∧
    (∀ rest prev, s.history = rest ++ [prev] →
      (undo s).boxes = prev ∧ (undo s).selected_box = none ∧ (undo s).history = rest ∧
      (s.has_images = true → (undo s).saves = s.saves + 1)) ∧
    ((run sLive (createA ++ createB ++ [.undoShortcut])).boxes = [boxA] ∧
      (run sLive createA).boxes = [boxA]) := by
  refine ⟨?_, ?_, by constructor <;> with_unfolding_all decide⟩
  · intro h
    unfold undo
    rw [h]
    rfl
  · intro rest prev h
    have hlast : s.history.getLast? = some prev := by
      rw [h]
      exact List.getLast?_concat _
    have hdrop : s.history.dropLast = rest := by
      rw [h]
      exact List.dropLast_concat
    simp only [undo, hlast, save_annotations_for_current]
    by_cases hi : s.has_images <;> simp [hi, hdrop]

/-- Witness for C3 at concrete inputs: undo on the default (empty
history) state is the identity, and undo on a one-snapshot state
restores that snapshot, clears selection and persists. -/
theorem C3_undo_semantics_witness :
    undo initState = initState ∧
    ((undo sOneSnap).boxes = [] ∧ (undo sOneSnap).selected_box = none ∧
      (undo sOneSnap).history = [] ∧
      (sOneSnap.has_images = true → (undo sOneSnap).saves = sOneSnap.saves + 1)) :=
  ⟨(C3_undo_semantics initState).1 rfl, (C3_undo_semantics sOneSnap).2.1 [] [] rfl⟩

/-- C2 is violated by the code (code bug): a single create action runs
`push_history` twice — once in the press handler and once in
`add_box_from_drag` — and every rendered frame with a selected box and
no action at all pushes one more snapshot through the selected-box
controls section. -/
theorem C2_push_history_not_once_per_action :
    (run sLive createA).history.length = 2 ∧
    (run sLive createA).boxes.length = 1 ∧
    (step (run sLive (createA ++ selectA)) (.controlsFrame 0 false)).boxes =
      (run sLive (createA ++ selectA)).boxes ∧
    (step (run sLive (createA ++ selectA)) (.controlsFrame 0 false)).history.length =
      (run sLive (createA ++ selectA)).history.length + 1 := by
  with_unfolding_all decide

/-! ## C5: box creation from a drag -/

/-- Both clamped drag coordinates lie inside `[0, width]`/`[0, height]`. -/
theorem drag_clamped_bounds (s : AppState) (img : Rect) (hw : 0 < img.width)
    (hh : 0 < img.height) :
    (0 ≤ drag_x0 s img ∧ drag_x0 s img ≤ img.width) ∧
    (0 ≤ drag_x1 s img ∧ drag_x1 s img ≤ img.width) ∧
    (0 ≤ drag_y0 s img ∧ drag_y0 s img ≤ img.height) ∧
    (0 ≤ drag_y1 s img ∧ drag_y1 s img ≤ img.height) := by
  unfold drag_x0 drag_x1 drag_y0 drag_y1 rclamp
  exact ⟨⟨le_min (le_max_right _ _) hw.le, min_le_right _ _⟩,
         ⟨le_min (le_max_right _ _) hw.le, min_le_right _ _⟩,
         ⟨le_min (le_max_right _ _) hh.le, min_le_right _ _⟩,
         ⟨le_min (le_max_right _ _) hh.le, min_le_right _ _⟩⟩

/-- The normalized drag ratios are ordered and live in `[0, 1]`. -/
theorem drag_ratio_bounds (s : AppState) (img : Rect) (hw : 0 < img.width)
    (hh : 0 < img.height) :
    (0 ≤ drag_nx0 s img ∧ drag_nx0 s img ≤ drag_nx1 s img ∧ drag_nx1 s img ≤ 1) ∧
    (0 ≤ drag_ny0 s img ∧ drag_ny0 s img ≤ drag_ny1 s img ∧ drag_ny1 s img ≤ 1) := by
  obtain ⟨hx0, hx1, hy0, hy1⟩ := drag_clamped_bounds s img hw hh
  refine ⟨⟨?_, ?_, ?_⟩, ⟨?_, ?_, ?_⟩⟩
  · exact div_nonneg (le_min hx0.1 hx1.1) hw.le
  · unfold drag_nx0 drag_nx1
    rw [div_le_div_right hw]
    exact min_le_max
  · unfold drag_nx1
    rw [div_le_one hw]
    exact max_le hx0.2 hx1.2
  · exact div_nonneg (le_min hy0.1 hy1.1) hh.le
  · unfold drag_ny0 drag_ny1
    rw [div_le_div_right hh]
    exact min_le_max
  · unfold drag_ny1
    rw [div_le_one hh]
    exact max_le hy0.2 hy1.2

/-- C5 (confirmed): on release of a Creating drag, a box is appended if
and only if both clamped pixel dimensions reach the configured minimum
(by default 6 px, and positive); a rejected drag leaves the state
entirely unchanged; an accepted one appends a box whose center and size
all lie in `[0, 1]`. -/
theorem C5_box_creation (s : AppState) (img : Rect)
    (hw : 0 < img.width) (hh : 0 < img.height) (hm : 0 < s.min_box_pixels) :
    ((add_box_from_drag s img).boxes ≠ s.boxes ↔
      s.min_box_pixels ≤ drag_pixel_w s img ∧ s.min_box_pixels ≤ drag_pixel_h s img) ∧
    (¬ (s.min_box_pixels ≤ drag_pixel_w s img ∧ s.min_box_pixels ≤ drag_pixel_h s img) →
      add_box_from_drag s img = s) ∧
    ((s.min_box_pixels ≤ drag_pixel_w s img ∧ s.min_box_pixels ≤ drag_pixel_h s img) →
      (add_box_from_drag s img).boxes =
        s.boxes ++ [⟨drag_class s, drag_cx s img, drag_cy s img, drag_w s img, drag_h s img⟩] ∧
      0 ≤ drag_cx s img ∧ drag_cx s img ≤ 1 ∧ 0 ≤ drag_cy s img ∧ drag_cy s img ≤ 1 ∧
      0 ≤ drag_w s img ∧ drag_w s img ≤ 1 ∧ 0 ≤ drag_h s img ∧ drag_h s img ≤ 1) := by
  obtain ⟨⟨hnx0, hnx01, hnx1⟩, hny0, hny01, hny1⟩ := drag_ratio_bounds s img hw hh
  have hwpos : s.min_box_pixels ≤ drag_pixel_w s img → 0 < drag_w s img := by
    intro hp
    by_contra hneg
    push_neg at hneg
    have hle : drag_pixel_w s img ≤ 0 := by
      unfold drag_pixel_w
      exact mul_nonpos_iff.mpr (Or.inr ⟨hneg, hw.le⟩)
    linarith
  have hhpos : s.min_box_pixels ≤ drag_pixel_h s img → 0 < drag_h s img := by
    intro hp
    by_contra hneg
    push_neg at hneg
    have hle : drag_pixel_h s img ≤ 0 := by
      unfold drag_pixel_h
      exact mul_nonpos_iff.mpr (Or.inr ⟨hneg, hh.le⟩)
    linarith
  by_cases hP : s.min_box_pixels ≤ drag_pixel_w s img ∧ s.min_box_pixels ≤ drag_pixel_h s img
  · have hcond : 0 < drag_w s img ∧ 0 < drag_h s img ∧
        s.min_box_pixels ≤ drag_pixel_w s img ∧ s.min_box_pixels ≤ drag_pixel_h s img :=
      ⟨hwpos hP.1, hhpos hP.2, hP.1, hP.2⟩
    have hstep : (add_box_from_drag s img).boxes =
        s.boxes ++ [⟨drag_class s, drag_cx s img, drag_cy s img, drag_w s img, drag_h s img⟩] := by
      unfold add_box_from_drag
      rw [if_pos hcond]
      rfl
    refine ⟨⟨fun _ => hP, fun _ => ?_⟩, fun hc => absurd hP hc, fun _ => ⟨hstep, ?_, ?_, ?_, ?_, ?_, ?_, ?_, ?_⟩⟩
    · rw [hstep]
      intro heq
      have := congrArg List.length heq
      simp at this
    · unfold drag_cx
      exact div_nonneg (by linarith) (by norm_num)
    · unfold drag_cx
      rw [div_le_one (by norm_num)]
      linarith
    · unfold drag_cy
      exact div_nonneg (by linarith) (by norm_num)
    · unfold drag_cy
      rw [div_le_one (by norm_num)]
      linarith
    · exact le_max_right _ _
    · exact max_le (by linarith) (by norm_num)
    · exact le_max_right _ _
    · exact max_le (by linarith) (by norm_num)
  · have hcond : ¬ (0 < drag_w s img ∧ 0 < drag_h s img ∧
        s.min_box_pixels ≤ drag_pixel_w s img ∧ s.min_box_pixels ≤ drag_pixel_h s img) := by
      intro hc
      exact hP ⟨hc.2.2.1, hc.2.2.2⟩
    have hstep : add_box_from_drag s img = s := by
      unfold add_box_from_drag
      rw [if_neg hcond]
    refine ⟨⟨fun hne => absurd (by rw [hstep]) hne, fun hp => absurd hp hP⟩,
      fun _ => hstep, fun hp => absurd hp hP⟩

/-- Witness for C5: the drag (10,10)→(40,40) on a 100×100 image clears
the 6-px minimum and appends a box. -/
theorem C5_box_creation_witness :
    (add_box_from_drag sDragged img0).boxes ≠ sDragged.boxes :=
  (C5_box_creation sDragged img0 (by with_unfolding_all decide)
      (by with_unfolding_all decide) (by with_unfolding_all decide)).1.mpr
    ⟨by with_unfolding_all decide, by with_unfolding_all decide⟩

/-! ## C9: stale-selection safety -/

theorem push_history_boxes (s : AppState) : (push_history s).boxes = s.boxes := rfl

theorem push_history_selected (s : AppState) :
    (push_history s).selected_box = s.selected_box := rfl

theorem save_ann_boxes (s : AppState) :
    (save_annotations_for_current s).boxes = s.boxes := by
  unfold save_annotations_for_current
  split <;> rfl

theorem save_ann_selected (s : AppState) :
    (save_annotations_for_current s).selected_box = s.selected_box := by
  unfold save_annotations_for_current
  split <;> rfl

theorem selInv_save {s : AppState} (h : selInv s) :
    selInv (save_annotations_for_current s) := by
  intro i hi
  rw [save_ann_selected] at hi
  rw [save_ann_boxes]
  exact h i hi

theorem selInv_pressStep {s : AppState} (img : Rect) (pos : Pos) (h : selInv s) :
    selInv (pressStep s img pos) := by
  unfold pressStep
  split
  · cases hfind : hitTest s.boxes img s.click_tolerance pos with
    | some i =>
      simp only [hfind]
      intro j hj
      simp only [push_history_selected] at hj
      have hij : i = j := by simpa using hj
      simpa [push_history_boxes] using hij ▸ hitTest_lt hfind
    | none =>
      simp only [hfind]
      intro j hj
      simp only [push_history_selected] at hj
      simp at hj
  · exact h

theorem selInv_of_proj {s t : AppState} (h : selInv s)
    (hsel : t.selected_box = s.selected_box) (hlen : s.boxes.length ≤ t.boxes.length) :
    selInv t :=
  fun i hi => lt_of_lt_of_le (h i (hsel ▸ hi)) hlen

theorem moveDrag_selected (s : AppState) (img : Rect) (pos : Pos) :
    (moveDrag s img pos).selected_box = s.selected_box := by
  unfold moveDrag
  repeat' split
  all_goals simp

theorem moveDrag_len (s : AppState) (img : Rect) (pos : Pos) :
    (moveDrag s img pos).boxes.length = s.boxes.length := by
  unfold moveDrag
  repeat' split
  all_goals simp [List.length_set]

theorem resizeDrag_selected (s : AppState) (corner : ResizeCorner) (img : Rect) (pos : Pos) :
    (resizeDrag s corner img pos).selected_box = s.selected_box := by
  unfold resizeDrag
  repeat' split
  all_goals simp

theorem resizeDrag_len (s : AppState) (corner : ResizeCorner) (img : Rect) (pos : Pos) :
    (resizeDrag s corner img pos).boxes.length = s.boxes.length := by
  unfold resizeDrag
  repeat' split
  all_goals simp [List.length_set]

theorem dragStep_selected (s : AppState) (img : Rect) (pos : Pos) (down : Bool) :
    (dragStep s img pos down).selected_box = s.selected_box := by
  unfold dragStep
  repeat' split
  all_goals simp [moveDrag_selected, resizeDrag_selected]

theorem dragStep_len (s : AppState) (img : Rect) (pos : Pos) (down : Bool) :
    (dragStep s img pos down).boxes.length = s.boxes.length := by
  unfold dragStep
  repeat' split
  all_goals simp [moveDrag_len, resizeDrag_len]

theorem addBox_selected (s : AppState) (img : Rect) :
    (add_box_from_drag s img).selected_box = s.selected_box := by
  unfold add_box_from_drag
  split <;> rfl

theorem addBox_len (s : AppState) (img : Rect) :
    s.boxes.length ≤ (add_box_from_drag s img).boxes.length := by
  unfold add_box_from_drag
  split
  · simp [push_history_boxes]
  · exact le_refl _

theorem releaseStep_selected (s : AppState) (img : Rect) :
    (releaseStep s img).selected_box = s.selected_box := by
  unfold releaseStep
  repeat' split
  all_goals simp [save_ann_selected, addBox_selected]

theorem releaseStep_len (s : AppState) (img : Rect) :
    s.boxes.length ≤ (releaseStep s img).boxes.length := by
  unfold releaseStep
  repeat' split
  · calc s.boxes.length
        = ({ s with dragging := false } : AppState).boxes.length := rfl
      _ ≤ (add_box_from_drag { s with dragging := false } img).boxes.length :=
          addBox_len { s with dragging := false } img
      _ = _ := by simp [save_ann_boxes]
  · simp [save_ann_boxes]
  · exact le_refl _

theorem duplicateStep_selected (s : AppState) :
    (duplicateStep s).selected_box = s.selected_box := by
  unfold duplicateStep
  split
  · rename_i n heq
    dsimp only
    cases hget : (push_history s).boxes.get? n with
    | some b => simp [save_ann_selected, push_history_selected]
    | none => simp [push_history_selected]
  · rfl

theorem duplicateStep_len (s : AppState) :
    s.boxes.length ≤ (duplicateStep s).boxes.length := by
  unfold duplicateStep
  split
  · rename_i n heq
    dsimp only
    cases hget : (push_history s).boxes.get? n with
    | some b => simp [save_ann_boxes, push_history_boxes]
    | none => simp [push_history_boxes]
  · exact le_refl _

theorem controlsStep_selected (s : AppState) (selChoice : ℕ) (assignLeft : Bool) :
    (controlsStep s selChoice assignLeft).selected_box = s.selected_box := by
  unfold controlsStep
  split
  · rename_i n heq
    dsimp only
    cases hget : (push_history s).boxes.get? n with
    | some b =>
      repeat' split
      all_goals simp [save_ann_selected, push_history_selected]
    | none => simp [push_history_selected]
  · rfl

theorem controlsStep_len (s : AppState) (selChoice : ℕ) (assignLeft : Bool) :
    (controlsStep s selChoice assignLeft).boxes.length = s.boxes.length := by
  unfold controlsStep
  split
  · rename_i n heq
    dsimp only
    cases hget : (push_history s).boxes.get? n with
    | some b =>
      repeat' split
      all_goals simp [save_ann_boxes, push_history_boxes, List.length_set]
    | none => simp [push_history_boxes]
  · rfl

theorem addClassStep_selected (s : AppState) (input : String) :
    (addClassStep s input).selected_box = s.selected_box := by
  unfold addClassStep
  split <;> rfl

theorem addClassStep_len (s : AppState) (input : String) :
    (addClassStep s input).boxes.length = s.boxes.length := by
  unfold addClassStep
  split <;> rfl

theorem selInv_dragStep {s : AppState} (img : Rect) (pos : Pos) (down : Bool)
    (h : selInv s) : selInv (dragStep s img pos down) :=
  selInv_of_proj h (dragStep_selected s img pos down) (le_of_eq (dragStep_len s img pos down).symm)

theorem selInv_releaseStep {s : AppState} (img : Rect) (h : selInv s) :
    selInv (releaseStep s img) :=
  selInv_of_proj h (releaseStep_selected s img) (releaseStep_len s img)

theorem selInv_duplicateStep {s : AppState} (h : selInv s) : selInv (duplicateStep s) :=
  selInv_of_proj h (duplicateStep_selected s) (duplicateStep_len s)

theorem selInv_controlsStep {s : AppState} (selChoice : ℕ) (assignLeft : Bool)
    (h : selInv s) : selInv (controlsStep s selChoice assignLeft) :=
  selInv_of_proj h (controlsStep_selected s selChoice assignLeft)
    (le_of_eq (controlsStep_len s selChoice assignLeft).symm)

theorem selInv_addClassStep {s : AppState} (input : String) (h : selInv s) :
    selInv (addClassStep s input) :=
  selInv_of_proj h (addClassStep_selected s input) (le_of_eq (addClassStep_len s input).symm)

theorem selInv_deleteStep {s : AppState} (h : selInv s) : selInv (deleteStep s) := by
  unfold deleteStep
  repeat' split
  · intro i hi
    rw [save_ann_selected] at hi
    simp at hi
  · exact h
  · exact h

theorem selInv_undo {s : AppState} (h : selInv s) : selInv (undo s) := by
  unfold undo
  split
  · intro i hi
    rw [save_ann_selected] at hi
    simp at hi
  · exact h

theorem selInv_switchImageStep {s : AppState} (lines : List String) (h : selInv s) :
    selInv (switchImageStep s lines) := by
  unfold switchImageStep
  split
  · intro i hi
    simp at hi
  · exact h

/-- Every single event of the interaction loop preserves stale-selection
safety. -/
theorem step_selInv (s : AppState) (e : Event) (h : selInv s) : selInv (step s e) := by
  cases e with
  | press img pos =>
    simp only [step]
    split
    · exact selInv_pressStep img pos h
    · exact h
  | drag img pos down =>
    simp only [step]
    split
    · exact selInv_dragStep img pos down h
    · exact h
  | release img =>
    simp only [step]
    split
    · exact selInv_releaseStep img h
    · exact h
  | deleteSelected =>
    simp only [step]
    split
    · exact selInv_deleteStep h
    · exact h
  | duplicateSelected =>
    simp only [step]
    split
    · exact selInv_duplicateStep h
    · exact h
  | controlsFrame c a =>
    simp only [step]
    split
    · exact selInv_controlsStep c a h
    · exact h
  | undoShortcut => exact selInv_undo h
  | addClass n => exact selInv_addClassStep n h
  | switchImage lines => exact selInv_switchImageStep lines h

/-- C9 (confirmed): under every sequence of events from a fresh session
(with or without images), every selected index stays inside the box
collection, so the guarded accesses never take their out-of-bounds
branch — whenever a mutation could invalidate the selection (undo,
delete, image switch) the selection is cleared instead. -/
theorem C9_no_stale_selection (events : List Event) (hasImgs : Bool) :
    selInv (run { initState with has_images := hasImgs } events) ∧
    ∀ i, (run { initState with has_images := hasImgs } events).selected_box = some i →
      (((run { initState with has_images := hasImgs } events).boxes.get? i)).isSome := by
  have hrun : ∀ (evs : List Event) (s : AppState), selInv s → selInv (run s evs) := by
    intro evs
    induction evs with
    | nil => exact fun s h => h
    | cons e rest ih =>
      intro s h
      exact ih (step s e) (step_selInv s e h)
  have h0 : selInv { initState with has_images := hasImgs } := by
    intro i hi
    simp [initState] at hi
  refine ⟨hrun events _ h0, ?_⟩
  intro i hi
  have hlt := hrun events _ h0 i hi
  rw [Option.isSome_iff_ne_none]
  intro hnone
  rw [List.get?_eq_none] at hnone
  omega

end Yolo
